import Mathlib

/-!
Shallow embedding of the ChainCall instruction codec
(src/Frontend/client/src/pages/AnchorMode.tsx): discriminator derivation,
type resolution, range validation, argument encoding (the body of the
handleSend try block) and return-data decoding (decodeWithLayout).

Buffers are modelled as `List Nat` of byte values; JavaScript BigInt
arithmetic is modelled with `Int`; fallible operations return
`Except String`.  The Node `Buffer` primitives the code relies on are
modelled with their documented semantics: `buf[i] = v` out of bounds is a
silent no-op, `src.copy(target, off)` copies only the bytes that fit, the
fixed-width `writeUIntLE` / `writeIntLE` family throws a range error when
the offset or the value is out of bounds, and `slice` clamps its range to
the buffer length.
-/

set_option maxRecDepth 40000

namespace ChainCall

/-- Decidable equality of Except values with decidable components. -/
instance instDecEqExcept {e a : Type} [DecidableEq e] [DecidableEq a] :
    DecidableEq (Except e a)
  | .error x, .error y =>
    if h : x = y then .isTrue (by rw [h]) else .isFalse (by intro he; cases he; exact h rfl)
  | .error _, .ok _ => .isFalse (by intro he; cases he)
  | .ok _, .error _ => .isFalse (by intro he; cases he)
  | .ok x, .ok y =>
    if h : x = y then .isTrue (by rw [h]) else .isFalse (by intro he; cases he; exact h rfl)

/-- The whitespace set of the JavaScript string trim: ASCII blanks plus the
no-break space (the full Unicode set is wider; no claim depends on it). -/
def isJsWhitespace (c : Char) : Bool :=
  c = ' ' ∨ c = Char.ofNat 9 ∨ c = Char.ofNat 10 ∨ c = Char.ofNat 11 ∨
  c = Char.ofNat 12 ∨ c = Char.ofNat 13 ∨ c = Char.ofNat 160

/-- String.prototype.trim: drop whitespace from both ends. -/
def jsTrim (s : String) : String :=
  String.mk (((s.toList.dropWhile isJsWhitespace).reverse.dropWhile isJsWhitespace).reverse)

/-- String.prototype.toLowerCase, on the basic latin letters. -/
def jsToLower (s : String) : String :=
  String.mk (s.toList.map Char.toLower)

/-- Whether the second list is a prefix of the first. -/
def listHasPre : List Char → List Char → Bool
  | _, [] => true
  | [], _ :: _ => false
  | a :: as, b :: bs => a = b ∧ listHasPre as bs

/-- String.prototype.startsWith. -/
def jsStartsWith (s pre : String) : Bool :=
  listHasPre s.toList pre.toList

/-- Little-endian byte expansion: byte i of v, for n bytes. -/
def leBytes (n v : Nat) : List Nat :=
  (List.range n).map (fun i => v / 256 ^ i % 256)

/-- Big-endian byte expansion over n bytes (used by SHA-256 padding and words). -/
def beBytes (n v : Nat) : List Nat :=
  (List.range n).map (fun i => v / 256 ^ (n - 1 - i) % 256)

/-- Little-endian read of n bytes starting at off (missing bytes read as 0). -/
def leRead (buf : List Nat) (off n : Nat) : Nat :=
  (List.range n).foldl (fun acc i => acc + buf.getD (off + i) 0 * 256 ^ i) 0

/-- UTF-8 encoding of one scalar value, per RFC 3629. -/
def utf8EncodeChar (c : Char) : List Nat :=
  let n := c.toNat
  if n < 0x80 then [n]
  else if n < 0x800 then [0xc0 + n / 64, 0x80 + n % 64]
  else if n < 0x10000 then [0xe0 + n / 4096, 0x80 + n / 64 % 64, 0x80 + n % 64]
  else [0xf0 + n / 262144, 0x80 + n / 4096 % 64, 0x80 + n / 64 % 64, 0x80 + n % 64]

/-- UTF-8 encoding of a string, as Buffer.from(s, utf8) produces. -/
def utf8Encode (s : String) : List Nat :=
  s.toList.flatMap utf8EncodeChar

/-- Decode one UTF-8 sequence from the front of a byte list; on a malformed
sequence produce the replacement character U+FFFD and consume one byte, as
Buffer.toString(utf8) does. -/
def utf8DecodeOne : List Nat → Option (Char × List Nat)
  | [] => none
  | b :: rest =>
    let repl : Char × List Nat := (Char.ofNat 0xFFFD, rest)
    let cont (x : Nat) : Bool := 0x80 ≤ x ∧ x < 0xc0
    if b < 0x80 then some (Char.ofNat b, rest)
    else if b < 0xc0 then some repl
    else if b < 0xe0 then
      match rest with
      | b1 :: r1 =>
        if cont b1 then
          let n := (b - 0xc0) * 64 + (b1 - 0x80)
          if 0x80 ≤ n then some (Char.ofNat n, r1) else some repl
        else some repl
      | _ => some repl
    else if b < 0xf0 then
      match rest with
      | b1 :: b2 :: r2 =>
        if cont b1 ∧ cont b2 then
          let n := (b - 0xe0) * 4096 + (b1 - 0x80) * 64 + (b2 - 0x80)
          if 0x800 ≤ n ∧ ¬ (0xd800 ≤ n ∧ n < 0xe000) then some (Char.ofNat n, r2)
          else some repl
        else some repl
      | _ => some repl
    else if b < 0xf8 then
      match rest with
      | b1 :: b2 :: b3 :: r3 =>
        if cont b1 ∧ cont b2 ∧ cont b3 then
          let n := (b - 0xf0) * 262144 + (b1 - 0x80) * 4096 + (b2 - 0x80) * 64 + (b3 - 0x80)
          if 0x10000 ≤ n ∧ n < 0x110000 then some (Char.ofNat n, r3) else some repl
        else some repl
      | _ => some repl
    else some repl

/-- Full UTF-8 decode of a byte list, with U+FFFD for malformed input. -/
def utf8Decode (bs : List Nat) : String :=
  go bs [] (bs.length + 1)
where
  go (bs : List Nat) (acc : List Char) : Nat → String
    | 0 => String.mk acc.reverse
    | fuel + 1 =>
      match utf8DecodeOne bs with
      | none => String.mk acc.reverse
      | some (c, rest) => go rest (c :: acc) fuel

/-- Lowercase hexadecimal digit for a value below 16. -/
def hexDigit (n : Nat) : Char :=
  if n < 10 then Char.ofNat (48 + n) else Char.ofNat (87 + n)

/-- Lowercase hexadecimal rendering of a byte list, as Buffer.toString(hex). -/
def hexEncode (bs : List Nat) : String :=
  String.mk (bs.flatMap (fun b => [hexDigit (b / 16 % 16), hexDigit (b % 16)]))

/-! ## SHA-256 (FIPS 180-4), byte-level, used by the discriminator -/

/-- The 64 SHA-256 round constants. -/
def sha256K : List Nat :=
  [1116352408, 1899447441, 3049323471, 3921009573, 961987163, 1508970993,
   2453635748, 2870763221, 3624381080, 310598401, 607225278, 1426881987,
   1925078388, 2162078206, 2614888103, 3248222580, 3835390401, 4022224774,
   264347078, 604807628, 770255983, 1249150122, 1555081692, 1996064986,
   2554220882, 2821834349, 2952996808, 3210313671, 3336571891, 3584528711,
   113926993, 338241895, 666307205, 773529912, 1294757372, 1396182291,
   1695183700, 1986661051, 2177026350, 2456956037, 2730485921, 2820302411,
   3259730800, 3345764771, 3516065817, 3600352804, 4094571909, 275423344,
   430227734, 506948616, 659060556, 883997877, 958139571, 1322822218,
   1537002063, 1747873779, 1955562222, 2024104815, 2227730452, 2361852424,
   2428436474, 2756734187, 3204031479, 3329325298]

/-- The SHA-256 initial hash value. -/
def sha256H0 : List Nat :=
  [1779033703, 3144134277, 1013904242,
   2773480762, 1359893119, 2600822924,
   528734635, 1541459225]

/-- 32-bit right rotation. -/
def rotr32 (n x : Nat) : Nat :=
  ((x >>> n) ||| (x <<< (32 - n))) &&& 0xffffffff

/-- SHA-256 message padding: 0x80, zeros to 56 mod 64, 8-byte big-endian bit length. -/
def sha256Pad (msg : List Nat) : List Nat :=
  let len := msg.length
  let k := (64 + 56 - (len + 1) % 64) % 64
  msg ++ [0x80] ++ List.replicate k 0 ++ beBytes 8 (8 * len)

/-- Split a byte list into 64-byte chunks (fuel-driven structural recursion;
the fuel bound always suffices since every step drops 64 bytes). -/
def sha256Blocks (l : List Nat) : List (List Nat) :=
  go l (l.length + 1)
where
  go (l : List Nat) : Nat → List (List Nat)
    | 0 => []
    | fuel + 1 =>
      if l.isEmpty then []
      else l.take 64 :: go (l.drop 64) fuel

/-- Extend the 16 message words to 64 via the small sigma recurrence. -/
def sha256Schedule (w : List Nat) : Nat → List Nat
  | 0 => w
  | fuel + 1 =>
    let t := w.length
    let s0x := w.getD (t - 15) 0
    let s1x := w.getD (t - 2) 0
    let s0 := rotr32 7 s0x ^^^ rotr32 18 s0x ^^^ (s0x >>> 3)
    let s1 := rotr32 17 s1x ^^^ rotr32 19 s1x ^^^ (s1x >>> 10)
    let nw := (w.getD (t - 16) 0 + s0 + w.getD (t - 7) 0 + s1) % 4294967296
    sha256Schedule (w ++ [nw]) fuel

/-- One SHA-256 round: state is the eight working variables a..h. -/
def sha256Round (w : List Nat) (st : List Nat) (t : Nat) : List Nat :=
  let a := st.getD 0 0
  let b := st.getD 1 0
  let c := st.getD 2 0
  let d := st.getD 3 0
  let e := st.getD 4 0
  let f := st.getD 5 0
  let g := st.getD 6 0
  let h := st.getD 7 0
  let S1 := rotr32 6 e ^^^ rotr32 11 e ^^^ rotr32 25 e
  let ch := (e &&& f) ^^^ ((e ^^^ 0xffffffff) &&& g)
  let T1 := (h + S1 + ch + sha256K.getD t 0 + w.getD t 0) % 4294967296
  let S0 := rotr32 2 a ^^^ rotr32 13 a ^^^ rotr32 22 a
  let maj := (a &&& b) ^^^ (a &&& c) ^^^ (b &&& c)
  let T2 := (S0 + maj) % 4294967296
  [(T1 + T2) % 4294967296, a, b, c, (d + T1) % 4294967296, e, f, g]

/-- Compress one 64-byte block into the running hash state. -/
def sha256Compress (hs : List Nat) (block : List Nat) : List Nat :=
  let w0 := (List.range 16).map (fun i =>
    block.getD (4 * i) 0 * 16777216 + block.getD (4 * i + 1) 0 * 65536 +
    block.getD (4 * i + 2) 0 * 256 + block.getD (4 * i + 3) 0)
  let w := sha256Schedule w0 48
  let fin := (List.range 64).foldl (sha256Round w) hs
  List.zipWith (fun x y => (x + y) % 4294967296) hs fin

/-- SHA-256 digest of a byte list, as 32 bytes. -/
def sha256Digest (msg : List Nat) : List Nat :=
  ((sha256Blocks (sha256Pad msg)).foldl sha256Compress sha256H0).flatMap (beBytes 4)

/-- SHA-256 digest of the UTF-8 bytes of a string, as 32 bytes.  Models the
js-sha256 call followed by Buffer.from(hash, hex). -/
def sha256Bytes (s : String) : List Nat :=
  sha256Digest (utf8Encode s)

/-! ## Discriminator derivation (toSnakeCase, getInstructionDiscriminator) -/

/-- The per-character regex replacement of toSnakeCase: each uppercase letter
becomes its lowercase form, prefixed with an underscore when its offset is
positive; other characters pass through.  The index argument is the offset of
the head character in the original string. -/
def snakeGo : List Char → Nat → List Char
  | [], _ => []
  | c :: rest, i =>
    (if c.isUpper then (if i > 0 then ['_'] else []) ++ [c.toLower] else [c])
      ++ snakeGo rest (i + 1)

/-- Drop one leading underscore, as the final replace of a ^_ pattern does. -/
def stripLeadingUnderscore (cs : List Char) : List Char :=
  match cs with
  | '_' :: rest => rest
  | _ => cs

/-- toSnakeCase from the source: insert an underscore before each uppercase
letter at positive offset, lowercase it, then remove one leading underscore. -/
def toSnakeCase (s : String) : String :=
  String.mk (stripLeadingUnderscore (snakeGo s.toList 0))

/-- getInstructionDiscriminator: the first 8 bytes of
sha256 of the string global: followed by the snake-cased name. -/
def getInstructionDiscriminator (instructionName : String) : List Nat :=
  (sha256Bytes ("global:" ++ toSnakeCase instructionName)).take 8

/-! ## Type descriptors and resolveArgType -/

/-- The IdlArg type field: a plain primitive name string, or a tagged object
with a defined, vec, option, coption or array key. -/
inductive IdlType where
  | primitive (s : String)
  | definedT (s : String)
  | vec (t : IdlType)
  | optionT (t : IdlType)
  | coption (t : IdlType)
  | arrayT (t : IdlType) (n : Nat)
deriving DecidableEq, Repr

/-- resolveArgType from the source: a plain string resolves to itself, a
defined object to the defined name (or the string kind when that name is the
empty, falsy string), vec and array objects to the literal names vec and
array, and option or coption objects recurse into the wrapped element. -/
def resolveArgType : IdlType → String
  | .primitive s => s
  | .definedT s => if s = "" then "string" else s
  | .vec _ => "vec"
  | .optionT t => resolveArgType t
  | .coption t => resolveArgType t
  | .arrayT _ _ => "array"

/-! ## Base-58 (the public-key text encoding used by PublicKey) -/

/-- The base-58 alphabet. -/
def b58Alphabet : List Char :=
  "123456789ABCDEFGHJKLMNPQRSTUVWXYZabcdefghijkmnopqrstuvwxyz".toList

/-- Index of a character in the base-58 alphabet. -/
def b58Index (c : Char) : Option Nat :=
  go b58Alphabet 0
where
  go : List Char → Nat → Option Nat
    | [], _ => none
    | a :: rest, i => if a = c then some i else go rest (i + 1)

/-- Minimal big-endian byte expansion of a natural number (empty for zero;
fuel-driven, and the fuel bound always suffices). -/
def natToBytesBE (n : Nat) : List Nat :=
  go n (n + 1)
where
  go (n : Nat) : Nat → List Nat
    | 0 => []
    | fuel + 1 =>
      if n = 0 then []
      else go (n / 256) fuel ++ [n % 256]

/-- Count of leading characters equal to c. -/
def countLeading (c : Char) : List Char → Nat
  | [] => 0
  | x :: rest => if x = c then countLeading c rest + 1 else 0

/-- Base-58 decode: each leading 1 is a zero byte, the rest is the big-endian
expansion of the base-58 value; none when a character is not in the alphabet. -/
def b58Decode (s : String) : Option (List Nat) :=
  (s.toList.foldl
    (fun acc c => do
      let a ← acc
      let v ← b58Index c
      pure (a * 58 + v))
    (some 0)).map
    (fun n => List.replicate (countLeading '1' s.toList) 0 ++ natToBytesBE n)

/-- Digits of a natural number in base 58 (empty for zero; fuel-driven, and
the fuel bound always suffices). -/
def natToB58 (n : Nat) : List Char :=
  go n (n + 1)
where
  go (n : Nat) : Nat → List Char
    | 0 => []
    | fuel + 1 =>
      if n = 0 then []
      else go (n / 58) fuel ++ [b58Alphabet.getD (n % 58) '1']

/-- Value of a big-endian byte list. -/
def bytesBEToNat (bs : List Nat) : Nat :=
  bs.foldl (fun acc b => acc * 256 + b) 0

/-- Base-58 encode of a byte list: one 1 per leading zero byte, then the
base-58 digits of the big-endian value. -/
def b58Encode (bs : List Nat) : String :=
  String.mk (List.replicate (countLeading0 bs) '1' ++ natToB58 (bytesBEToNat bs))
where
  countLeading0 : List Nat → Nat
    | [] => 0
    | x :: rest => if x = 0 then countLeading0 rest + 1 else 0

/-- new PublicKey(string): base-58 decode and require exactly 32 bytes. -/
def publicKeyFromBase58 (s : String) : Option (List Nat) :=
  match b58Decode s with
  | some bs => if bs.length = 32 then some bs else none
  | none => none

/-! ## Textual numeric parsing (BigInt and Number, decimal and radix forms) -/

/-- Digit value of a character in the given base (10, 16, 8 or 2). -/
def digitVal (base : Nat) (c : Char) : Option Nat :=
  let n := c.toNat
  if 48 ≤ n ∧ n ≤ 57 ∧ n - 48 < base then some (n - 48)
  else if base = 16 ∧ 97 ≤ n ∧ n ≤ 102 then some (n - 87)
  else if base = 16 ∧ 65 ≤ n ∧ n ≤ 70 then some (n - 55)
  else none

/-- Parse a non-empty run of digits in the given base. -/
def parseDigits (base : Nat) (cs : List Char) : Option Nat :=
  if cs.isEmpty then none
  else cs.foldl
    (fun acc c => do
      let a ← acc
      let v ← digitVal base c
      pure (a * base + v))
    (some 0)

/-- The BigInt string constructor on a trimmed, non-empty string: an optional
sign with decimal digits, or an unsigned 0x, 0o or 0b radix literal; none
models the thrown SyntaxError. -/
def jsBigIntOfString (s : String) : Option Int :=
  let cs := s.toList
  if jsStartsWith s "0x" ∨ jsStartsWith s "0X" then (parseDigits 16 (cs.drop 2)).map Int.ofNat
  else if jsStartsWith s "0o" ∨ jsStartsWith s "0O" then (parseDigits 8 (cs.drop 2)).map Int.ofNat
  else if jsStartsWith s "0b" ∨ jsStartsWith s "0B" then (parseDigits 2 (cs.drop 2)).map Int.ofNat
  else
    match cs with
    | '-' :: rest => (parseDigits 10 rest).map (fun n => -(n : Int))
    | '+' :: rest => (parseDigits 10 rest).map Int.ofNat
    | _ => (parseDigits 10 cs).map Int.ofNat

/-- parseBigIntInput from the source: default a missing or blank value to 0,
else parse as BigInt; the failure names the argument and echoes the raw value
(undefined when the value was absent). -/
def parseBigIntInput (raw : Option String) (argName : String) : Except String Int :=
  let normalized := jsTrim (raw.getD "0")
  if normalized = "" then .ok 0
  else
    match jsBigIntOfString normalized with
    | some v => .ok v
    | none =>
      let rawShown := raw.getD "undefined"
      .error s!"[{argName}] Invalid integer value: {rawShown}"

/-- Classification of Number(raw) as the source consumes it: not finite
(NaN or an infinity), finite but not an integer, or an integer value.
Decimal literals with optional sign and fraction and the 0x, 0o and 0b radix
forms are modelled; scientific notation is not (no claim exercises it). -/
inductive JsNumber where
  | notFinite
  | nonIntegral
  | integral (v : Int)
deriving DecidableEq, Repr

/-- Number(s) classified per JsNumber; whitespace-only input is 0. -/
def jsNumberOfString (s : String) : JsNumber :=
  let t := jsTrim s
  let cs := t.toList
  if t = "" then .integral 0
  else if jsStartsWith t "0x" ∨ jsStartsWith t "0X" then
    match parseDigits 16 (cs.drop 2) with
    | some n => .integral n
    | none => .notFinite
  else if jsStartsWith t "0o" ∨ jsStartsWith t "0O" then
    match parseDigits 8 (cs.drop 2) with
    | some n => .integral n
    | none => .notFinite
  else if jsStartsWith t "0b" ∨ jsStartsWith t "0B" then
    match parseDigits 2 (cs.drop 2) with
    | some n => .integral n
    | none => .notFinite
  else
    let (sign, body) : Int × List Char :=
      match cs with
      | '-' :: rest => (-1, rest)
      | '+' :: rest => (1, rest)
      | _ => (1, cs)
    let (intDigits, rest) := body.span (fun c => 48 ≤ c.toNat ∧ c.toNat ≤ 57)
    match rest with
    | [] =>
      match parseDigits 10 intDigits with
      | some n => .integral (sign * n)
      | none => .notFinite
    | '.' :: frac =>
      if frac.all (fun c => 48 ≤ c.toNat ∧ c.toNat ≤ 57) ∧ ¬ (intDigits.isEmpty ∧ frac.isEmpty) then
        if frac.any (fun c => c.toNat ≠ 48) then .nonIntegral
        else .integral (sign * (parseDigits 10 intDigits).getD 0)
      else .notFinite
    | _ => .notFinite

/-- parseIntegerInput from the source: undefined, null or the empty string is
0; a non-finite Number fails; a non-integer Number fails; else the value. -/
def parseIntegerInput (raw : Option String) (argName : String) : Except String Int :=
  match raw with
  | none => .ok 0
  | some s =>
    if s = "" then .ok 0
    else
      match jsNumberOfString s with
      | .notFinite => .error s!"[{argName}] Value must be a finite number"
      | .nonIntegral => .error s!"[{argName}] Value must be an integer"
      | .integral v => .ok v

/-! ## Range validators -/

/-- ensureBigIntRange from the source: signed values must lie in the two's
complement range for the bit width; unsigned values must be non-negative (with
a message that does not echo the value) and at most 2 to the bits minus 1. -/
def ensureBigIntRange (value : Int) (bits : Nat) (signed : Bool)
    (argName typeLabel : String) : Except String Unit :=
  if signed then
    let lo : Int := -(2 ^ (bits - 1))
    let hi : Int := 2 ^ (bits - 1) - 1
    if value < lo ∨ value > hi then
      .error s!"[{argName}] Value {value} is out of range for {typeLabel}"
    else .ok ()
  else
    if value < 0 then
      .error s!"[{argName}] {typeLabel} must be greater than or equal to 0"
    else if value > 2 ^ bits - 1 then
      .error s!"[{argName}] Value {value} is out of range for {typeLabel}"
    else .ok ()

/-- ensureNumberRange from the source, for the widths at most 32 bits. -/
def ensureNumberRange (value : Int) (bits : Nat) (signed : Bool)
    (argName typeLabel : String) : Except String Unit :=
  let lo : Int := if signed then -(2 ^ (bits - 1)) else 0
  let hi : Int := if signed then 2 ^ (bits - 1) - 1 else 2 ^ bits - 1
  if value < lo ∨ value > hi then
    .error s!"[{argName}] Value {value} is out of range for {typeLabel}"
  else .ok ()

/-! ## Node Buffer primitives -/

/-- Buffer.copy: copy as many source bytes as fit into the target starting at
off; bytes that would land past the end of the target are silently dropped,
and the target length is unchanged. -/
def bufCopy (src buf : List Nat) (off : Nat) : List Nat :=
  buf.take off ++ src.take (buf.length - off) ++ buf.drop (off + src.length)

/-- Buffer.writeUIntLE family (w bytes): a value or offset out of bounds
throws a range error from the buffer layer; otherwise write little-endian. -/
def bufWriteUIntLE (buf : List Nat) (w : Nat) (value : Int) (off : Nat) :
    Except String (List Nat) :=
  if value < 0 ∨ value > 2 ^ (8 * w) - 1 then
    .error "The value argument is out of range"
  else if off + w ≤ buf.length then
    .ok (buf.take off ++ leBytes w value.toNat ++ buf.drop (off + w))
  else .error "The offset argument is out of range"

/-- Buffer.writeIntLE family (w bytes): bounds-checked two's-complement
little-endian write. -/
def bufWriteIntLE (buf : List Nat) (w : Nat) (value : Int) (off : Nat) :
    Except String (List Nat) :=
  if value < -(2 ^ (8 * w - 1)) ∨ value > 2 ^ (8 * w - 1) - 1 then
    .error "The value argument is out of range"
  else if off + w ≤ buf.length then
    .ok (buf.take off ++ leBytes w (value % 2 ^ (8 * w)).toNat ++ buf.drop (off + w))
  else .error "The offset argument is out of range"

/-! ## BigInt encoding (writeBigIntToBuffer) -/

/-- The BIGINT_BYTE_LENGTH table. -/
def BIGINT_BYTE_LENGTH : List (String × Nat) :=
  [("u64", 8), ("i64", 8), ("u128", 16), ("i128", 16)]

/-- The write loop of writeBigIntToBuffer: byte-at-a-time plain index
assignment, which on a Node Buffer is a silent no-op past the end. -/
def bigIntWriteLoop (buf : List Nat) (off n : Nat) : Nat → List Nat
  | 0 => buf
  | k + 1 => bigIntWriteLoop (buf.set off (n % 256)) (off + 1) (n >>> 8) k

/-- writeBigIntToBuffer from the source: look up the byte width, parse,
range-check, two's-complement normalize a negative signed value, then write
little-endian bytes; returns the byte count written and the new buffer. -/
def writeBigIntToBuffer (buf : List Nat) (rawValue : Option String) (off : Nat)
    (typeName argName : String) : Except String (Nat × List Nat) :=
  match BIGINT_BYTE_LENGTH.lookup typeName with
  | none => .error s!"Unsupported bigint type {typeName}"
  | some byteLength =>
    let signed := jsStartsWith typeName "i"
    let bits := byteLength * 8
    match parseBigIntInput rawValue argName with
    | .error e => .error e
    | .ok value =>
      match ensureBigIntRange value bits signed argName typeName with
      | .error e => .error e
      | .ok _ =>
        let normalized : Int := if signed ∧ value < 0 then 2 ^ bits + value else value
        .ok (byteLength, bigIntWriteLoop buf off normalized.toNat byteLength)

/-! ## The argument encoder: the body of the handleSend try block -/

/-- One declared argument: a name and a type descriptor. -/
structure IdlArg where
  name : String
  type : IdlType
deriving DecidableEq, Repr

/-- The per-argument encode loop of handleSend, threading the 1024-byte
buffer and the write offset.  Branch order and branch bodies mirror the
source dispatch on the lowercased resolved type name; the final else is the
length-prefixed UTF-8 fallback for unknown and composite types. -/
def handleSendLoop (argValues : List (String × String)) :
    List IdlArg → List Nat → Nat → Except String (List Nat × Nat)
  | [], buf, offset => .ok (buf, offset)
  | arg :: rest, buf, offset =>
    let value := argValues.lookup arg.name
    let argName := arg.name
    let resolvedType := resolveArgType arg.type
    let typeName := jsToLower resolvedType
    if typeName = "u64" ∨ typeName = "u128" ∨ typeName = "i64" ∨ typeName = "i128" then
      match writeBigIntToBuffer buf value offset typeName argName with
      | .error e => .error e
      | .ok (written, buf2) => handleSendLoop argValues rest buf2 (offset + written)
    else if typeName = "u32" ∨ typeName = "i32" then
      match parseIntegerInput value argName with
      | .error e => .error e
      | .ok val =>
        match ensureNumberRange val 32 (jsStartsWith typeName "i") argName resolvedType with
        | .error e => .error e
        | .ok _ =>
          match (if jsStartsWith typeName "u" then bufWriteUIntLE buf 4 val offset
                 else bufWriteIntLE buf 4 val offset) with
          | .error e => .error e
          | .ok buf2 => handleSendLoop argValues rest buf2 (offset + 4)
    else if typeName = "u16" ∨ typeName = "i16" then
      match parseIntegerInput value argName with
      | .error e => .error e
      | .ok val =>
        match ensureNumberRange val 16 (jsStartsWith typeName "i") argName resolvedType with
        | .error e => .error e
        | .ok _ =>
          match (if jsStartsWith typeName "u" then bufWriteUIntLE buf 2 val offset
                 else bufWriteIntLE buf 2 val offset) with
          | .error e => .error e
          | .ok buf2 => handleSendLoop argValues rest buf2 (offset + 2)
    else if typeName = "u8" ∨ typeName = "i8" then
      match parseIntegerInput value argName with
      | .error e => .error e
      | .ok val =>
        match ensureNumberRange val 8 (jsStartsWith typeName "i") argName resolvedType with
        | .error e => .error e
        | .ok _ =>
          match (if jsStartsWith typeName "u" then bufWriteUIntLE buf 1 val offset
                 else bufWriteIntLE buf 1 val offset) with
          | .error e => .error e
          | .ok buf2 => handleSendLoop argValues rest buf2 (offset + 1)
    else if typeName = "string" then
      let strBytes := utf8Encode (value.getD "")
      match bufWriteUIntLE buf 4 strBytes.length offset with
      | .error e => .error e
      | .ok buf2 =>
        handleSendLoop argValues rest (bufCopy strBytes buf2 (offset + 4))
          (offset + 4 + strBytes.length)
    else if typeName = "bool" then
      let normalized := jsToLower (jsTrim (value.getD ""))
      if normalized = "" ∨ normalized = "false" ∨ normalized = "0" then
        match bufWriteUIntLE buf 1 0 offset with
        | .error e => .error e
        | .ok buf2 => handleSendLoop argValues rest buf2 (offset + 1)
      else if normalized = "true" ∨ normalized = "1" then
        match bufWriteUIntLE buf 1 1 offset with
        | .error e => .error e
        | .ok buf2 => handleSendLoop argValues rest buf2 (offset + 1)
      else .error s!"[{argName}] Invalid bool value. Use true/false or 1/0."
    else if typeName = "publickey" ∨ typeName = "pubkey" then
      match value with
      | none => .error s!"Invalid PublicKey for {argName}"
      | some v =>
        match publicKeyFromBase58 v with
        | none => .error s!"Invalid PublicKey for {argName}"
        | some pubkeyBytes =>
          handleSendLoop argValues rest (bufCopy pubkeyBytes buf offset) (offset + 32)
    else
      let strBytes := utf8Encode (value.getD "")
      match bufWriteUIntLE buf 4 strBytes.length offset with
      | .error e => .error e
      | .ok buf2 =>
        handleSendLoop argValues rest (bufCopy strBytes buf2 (offset + 4))
          (offset + 4 + strBytes.length)

/-- The whole encode of handleSend: allocate 1024 zero bytes, copy the 8-byte
discriminator, run the argument loop from offset 8, and return the buffer
sliced to the final offset (slice clamps to the buffer length). -/
def handleSendEncode (instructionName : String) (args : List IdlArg)
    (argValues : List (String × String)) : Except String (List Nat) :=
  let discriminator := getInstructionDiscriminator instructionName
  let buf0 := bufCopy discriminator (List.replicate 1024 0) 0
  match handleSendLoop argValues args buf0 8 with
  | .error e => .error e
  | .ok (buf, offset) => .ok (buf.take offset)

/-! ## The return decoder (readBigIntFromBuffer, decodeWithLayout) -/

/-- The numericTypes table of decodeWithLayout: byte width and signedness. -/
def numericTypes : List (String × (Nat × Bool)) :=
  [("u8", (1, false)), ("u16", (2, false)), ("u32", (4, false)),
   ("u64", (8, false)), ("u128", (16, false)),
   ("i8", (1, true)), ("i16", (2, true)), ("i32", (4, true)),
   ("i64", (8, true)), ("i128", (16, true))]

/-- readBigIntFromBuffer from the source: or together the bytes little-endian,
then subtract the modulus when a signed read is at or above the half-range
threshold. -/
def readBigIntFromBuffer (buffer : List Nat) (offset byteLength : Nat)
    (signed : Bool) : Int :=
  let result := (List.range byteLength).foldl
    (fun acc i => acc ||| (buffer.getD (offset + i) 0 <<< (8 * i))) 0
  let max := 1 <<< (8 * byteLength)
  let threshold := max >>> 1
  if signed ∧ threshold ≤ result then (result : Int) - (max : Int) else (result : Int)

/-- A single quote character, for the unsupported-type message. -/
def sq : String := String.singleton (Char.ofNat 39)

/-- One field of decodeWithLayout: given the declared type, the payload and
the read offset, produce the decoded textual value and the new offset, or the
message of the error the source throws and catches.  Mirrors the dispatch in
the try block of decodeWithLayout. -/
def decodeStep (ty : String) (buffer : List Nat) (offset : Nat) :
    Except String (String × Nat) :=
  let remaining : Int := (buffer.length : Int) - (offset : Int)
  let ensure : Nat → Except String Unit := fun required =>
    if remaining < (required : Int) then
      .error s!"Need {required} more bytes, only {remaining} left"
    else .ok ()
  match numericTypes.lookup ty with
  | some (bytes, signed) =>
    match ensure bytes with
    | .error e => .error e
    | .ok _ => .ok (toString (readBigIntFromBuffer buffer offset bytes signed), offset + bytes)
  | none =>
    if ty = "bool" then
      match ensure 1 with
      | .error e => .error e
      | .ok _ => .ok (if buffer.getD offset 0 = 1 then "true" else "false", offset + 1)
    else if ty = "pubkey" then
      match ensure 32 with
      | .error e => .error e
      | .ok _ => .ok (b58Encode ((buffer.drop offset).take 32), offset + 32)
    else if ty = "string" ∨ ty = "bytes" then
      match ensure 4 with
      | .error e => .error e
      | .ok _ =>
        let length := leRead buffer offset 4
        let offset2 := offset + 4
        let remaining2 : Int := (buffer.length : Int) - (offset2 : Int)
        if remaining2 < (length : Int) then
          .error s!"Need {length} more bytes, only {remaining2} left"
        else
          let slice := (buffer.drop offset2).take length
          .ok (if ty = "string" then utf8Decode slice else hexEncode slice, offset2 + length)
    else
      .error (s!"Unsupported field type " ++ sq ++ ty ++ sq)

/-- One declared layout field: name and declared type. -/
structure ReturnField where
  name : String
  type : String
deriving DecidableEq, Repr

/-- One decoded field: name, declared type, decoded textual value (or an
embedded decode-error message). -/
structure DecodedReturnField where
  name : String
  type : String
  value : String
deriving DecidableEq, Repr

/-- The field loop of decodeWithLayout: count is the number of fields decoded
so far (it feeds the default field name); a failing field records the decode
error as its value and ends the loop. -/
def decodeWithLayoutGo (buffer : List Nat) :
    List ReturnField → Nat → Nat → List DecodedReturnField
  | [], _, _ => []
  | field :: rest, count, offset =>
    let c1 := count + 1
    let name := if jsTrim field.name = "" then s!"field_{c1}" else jsTrim field.name
    match decodeStep field.type buffer offset with
    | .ok (value, offset2) =>
      ⟨name, field.type, value⟩ :: decodeWithLayoutGo buffer rest (count + 1) offset2
    | .error msg => [⟨name, field.type, s!"Decode error: {msg}"⟩]

/-- decodeWithLayout from the source: walk the layout in order from offset 0;
it never throws, and it stops after the first field that fails. -/
def decodeWithLayout (buffer : List Nat) (layout : List ReturnField) :
    List DecodedReturnField :=
  decodeWithLayoutGo buffer layout 0 0

/-- Whether every field of the layout decodes successfully from the payload,
starting at the given offset. -/
def decodeAllOk (buffer : List Nat) : List ReturnField → Nat → Bool
  | [], _ => true
  | field :: rest, offset =>
    match decodeStep field.type buffer offset with
    | .ok (_, offset2) => decodeAllOk buffer rest offset2
    | .error _ => false

/-! ## Spec-side definitions used to state the claims -/

/-- Modelled from the claim wording of C4: insert an underscore before every
uppercase letter that is not the first character, then lowercase the whole
string (no removal of a leading underscore). -/
def claimInsertUnderscores : List Char → Nat → List Char
  | [], _ => []
  | c :: rest, i =>
    (if c.isUpper ∧ i > 0 then ['_', c] else [c]) ++ claimInsertUnderscores rest (i + 1)

/-- The claim-side snake-case normalization of C4. -/
def claimSnakeCase (s : String) : String :=
  String.mk ((claimInsertUnderscores s.toList 0).map Char.toLower)

/-- The claim-side discriminator of C4: first 8 bytes of sha256 of global:
followed by the claim-side normalization. -/
def claimDiscriminator (s : String) : List Nat :=
  (sha256Bytes ("global:" ++ claimSnakeCase s)).take 8

/-- The type names the encoder dispatch recognizes (everything else falls to
the length-prefixed fallback). -/
def encoderKinds : List String :=
  ["u64", "u128", "i64", "i128", "u32", "i32", "u16", "i16", "u8", "i8",
   "string", "bool", "publickey", "pubkey"]

/-- The encoding kind a resolved type name is dispatched to: itself (after
lowercasing) when recognized, the opaque unknown kind otherwise. -/
def encoderKindOf (s : String) : String :=
  let t := jsToLower s
  if encoderKinds.contains t then t else "unknown"

/-- Modelled from the claim wording of C3: Primitive maps to its kind
(unknown when unrecognized), Option and CompatOption recurse, Vector, Array
and Defined map to unknown. -/
def claimResolveKind : IdlType → String
  | .primitive s => encoderKindOf s
  | .definedT _ => "unknown"
  | .vec _ => "unknown"
  | .optionT t => claimResolveKind t
  | .coption t => claimResolveKind t
  | .arrayT _ _ => "unknown"

/-- The amended resolver mapping of C3 at the kind level: Defined resolves to
its own name (string when blank), so a Defined whose name is a primitive kind
is encoded as that primitive, not through the unknown fallback. -/
def amendedResolveKind : IdlType → String
  | .primitive s => encoderKindOf s
  | .definedT s => if s = "" then "string" else encoderKindOf s
  | .vec _ => "unknown"
  | .optionT t => amendedResolveKind t
  | .coption t => amendedResolveKind t
  | .arrayT _ _ => "unknown"

/-- Whether needle occurs as a contiguous substring of hay (over char lists). -/
def containsSub (needle hay : String) : Bool :=
  go needle.toList hay.toList
where
  isPre : List Char → List Char → Bool
    | [], _ => true
    | _ :: _, [] => false
    | a :: as, b :: bs => a = b ∧ isPre as bs
  go (n : List Char) : List Char → Bool
    | [] => isPre n []
    | l@(_ :: rest) => isPre n l || go n rest

/-- Encode a single argument of the given primitive kind with the given
textual value, and return only the argument bytes (the output with the 8
discriminator bytes dropped). -/
def encodeOne (kind v : String) : Except String (List Nat) :=
  (handleSendEncode "echo" [⟨"x", .primitive kind⟩] [("x", v)]).map (List.drop 8)

/-! # Theorems -/

/-- toNat of Char.ofNat below the surrogate range. -/
theorem toNat_ofNat_small (m : Nat) (h : m < 55296) : (Char.ofNat m).toNat = m := by
  have hv : m.isValidChar := Or.inl h
  simp [Char.ofNat, hv, Char.ofNatAux, Char.toNat, UInt32.toNat]

/-- toLower leaves a non-uppercase character unchanged. -/
theorem lower_id_of_not_upper (c : Char) (h : c.isUpper = false) : c.toLower = c := by
  simp [Char.isUpper, UInt32.le_def, BitVec.le_def, UInt32.lt_def, BitVec.lt_def] at h
  simp only [Char.toLower, Char.toNat]
  rw [if_neg]
  intro hc
  exact absurd (h hc.1) (Nat.not_lt.mpr hc.2)

/-- toLower of an uppercase letter is never an underscore. -/
theorem upper_toLower_ne_underscore (c : Char) (h : c.isUpper = true) : c.toLower ≠ '_' := by
  have h' : 65 ≤ c.toNat ∧ c.toNat ≤ 90 := by
    simpa [Char.isUpper, UInt32.le_def, BitVec.le_def, Char.toNat, UInt32.toNat] using h
  simp only [Char.toLower]
  rw [if_pos h']
  intro he
  have h2 : (Char.ofNat (Char.toNat c + 32)).toNat = ('_' : Char).toNat := by rw [he]
  rw [toNat_ofNat_small _ (by omega)] at h2
  have h95 : ('_' : Char).toNat = 95 := rfl
  omega

/-- The regex replacement of toSnakeCase computes the claim-side insertion
followed by a lowercasing of every character. -/
theorem snakeGo_eq_claim (cs : List Char) (i : Nat) :
    snakeGo cs i = (claimInsertUnderscores cs i).map Char.toLower := by
  induction cs generalizing i with
  | nil => rfl
  | cons c rest ih =>
    by_cases hu : c.isUpper = true
    · by_cases hi : i > 0
      · simp [snakeGo, claimInsertUnderscores, hu, hi, ih]
      · simp [snakeGo, claimInsertUnderscores, hu, hi, ih]
    · have hl := lower_id_of_not_upper c (by simpa using hu)
      simp [snakeGo, claimInsertUnderscores, hu, ih, hl]

/-- Dropping one leading underscore is the identity when the head is not an
underscore. -/
theorem strip_id_of_head_ne (cs : List Char) (h : cs.head? ≠ some '_') :
    stripLeadingUnderscore cs = cs := by
  unfold stripLeadingUnderscore
  split
  · exact absurd (by simp) h
  · rfl

/-- For a name that does not begin with an underscore, the source
normalization agrees with the claim-side normalization. -/
theorem toSnakeCase_eq_claim (s : String) (h : s.toList.head? ≠ some '_') :
    toSnakeCase s = claimSnakeCase s := by
  unfold toSnakeCase claimSnakeCase
  rw [snakeGo_eq_claim]
  congr 1
  apply strip_id_of_head_ne
  match hcs : s.toList with
  | [] => simp [claimInsertUnderscores]
  | c :: rest =>
    rw [hcs] at h
    have hc : c ≠ '_' := by intro he; exact h (by simp [he])
    by_cases hu : c.isUpper = true
    · simp [claimInsertUnderscores, hu]
      exact upper_toLower_ne_underscore c hu
    · have hl := lower_id_of_not_upper c (by simpa using hu)
      simp [claimInsertUnderscores, hu, hl]
      exact hc

/-- bufCopy never changes the target length. -/
theorem bufCopy_length (src buf : List Nat) (off : Nat) :
    (bufCopy src buf off).length = buf.length := by
  simp [bufCopy]
  omega

/-- leBytes produces exactly n bytes. -/
theorem leBytes_length (n v : Nat) : (leBytes n v).length = n := by
  simp [leBytes]

/-- A successful fixed-width unsigned write preserves the buffer length. -/
theorem bufWriteUIntLE_length {buf : List Nat} {w : Nat} {v : Int} {off : Nat}
    {buf2 : List Nat} (h : bufWriteUIntLE buf w v off = .ok buf2) :
    buf2.length = buf.length := by
  unfold bufWriteUIntLE at h
  split at h
  · cases h
  · split at h
    · cases h
      simp [leBytes_length]
      omega
    · cases h

/-- A successful fixed-width signed write preserves the buffer length. -/
theorem bufWriteIntLE_length {buf : List Nat} {w : Nat} {v : Int} {off : Nat}
    {buf2 : List Nat} (h : bufWriteIntLE buf w v off = .ok buf2) :
    buf2.length = buf.length := by
  unfold bufWriteIntLE at h
  split at h
  · cases h
  · split at h
    · cases h
      simp [leBytes_length]
      omega
    · cases h

/-- The byte-at-a-time bigint write loop preserves the buffer length. -/
theorem bigIntWriteLoop_length (k : Nat) : ∀ (buf : List Nat) (off n : Nat),
    (bigIntWriteLoop buf off n k).length = buf.length := by
  induction k with
  | zero => intro buf off n; rfl
  | succ k ih => intro buf off n; simp [bigIntWriteLoop, ih]

/-- A successful writeBigIntToBuffer preserves the buffer length. -/
theorem writeBigIntToBuffer_length {buf : List Nat} {rv : Option String} {off : Nat}
    {tn an : String} {w : Nat} {buf2 : List Nat}
    (h : writeBigIntToBuffer buf rv off tn an = .ok (w, buf2)) :
    buf2.length = buf.length := by
  unfold writeBigIntToBuffer at h
  split at h
  · cases h
  · split at h
    · cases h
    · dsimp only at h
      split at h
      · cases h
      · cases h
        exact bigIntWriteLoop_length _ _ _ _

/-- The encode loop of handleSend never changes the buffer length: every
branch writes through a length-preserving buffer primitive. -/
theorem handleSendLoop_length (vals : List (String × String)) (args : List IdlArg) :
    ∀ (buf : List Nat) (off : Nat) (buf2 : List Nat) (off2 : Nat),
    handleSendLoop vals args buf off = .ok (buf2, off2) → buf2.length = buf.length := by
  induction args with
  | nil =>
    intro buf off buf2 off2 h
    simp [handleSendLoop] at h
    rw [← h.1]
  | cons a rest ih =>
    intro buf off buf2 off2 h
    unfold handleSendLoop at h
    dsimp only at h
    repeat' split at h
    all_goals try cases h
    all_goals try (rw [ih _ _ _ _ h]; exact writeBigIntToBuffer_length (by assumption))
    all_goals try (rw [ih _ _ _ _ h]; exact bufWriteUIntLE_length (by assumption))
    all_goals try (rw [ih _ _ _ _ h, bufCopy_length]; exact bufWriteUIntLE_length (by assumption))
    all_goals try (rw [ih _ _ _ _ h, bufCopy_length])
    all_goals (rw [ih _ _ _ _ h]; rename_i heq; split at heq)
    all_goals first
      | exact bufWriteUIntLE_length heq
      | exact bufWriteIntLE_length heq

/-- C1 (amended).  The encoder performs no capacity check and raises no
BufferOverflow: the returned buffer never exceeds 1024 bytes only because the
final slice clamps to the allocation, while string or fallback content past
the capacity is silently dropped (see the counterexample) and only the
fixed-width writes at an out-of-range offset abort, with a generic
buffer-layer range error.  This theorem proves the clamp: every successful
encode returns at most 1024 bytes. -/
theorem c1_amended_output_le_capacity (name : String) (args : List IdlArg)
    (values : List (String × String)) :
    ((handleSendEncode name args values).toOption.map List.length).getD 0 ≤ 1024 := by
  unfold handleSendEncode
  dsimp only
  split
  · rename_i heq
    simp [Except.toOption]
  · rename_i buf off heq
    have hlen := handleSendLoop_length _ _ _ _ _ _ heq
    have hb : (bufCopy (getInstructionDiscriminator name) (List.replicate 1024 0) 0).length
        = 1024 := by
      rw [bufCopy_length]; simp
    simp only [Except.toOption, Option.map, Option.getD, List.length_take]
    omega

/-- C1 (counterexample).  Encoding a single string argument of 1013
characters writes 8 discriminator bytes, a 4-byte length prefix and 1013
content bytes, so the write offset passes the 1024-byte capacity; the claim
says this fails with BufferOverflow and produces no buffer, but the encode
call succeeds and returns a (truncated) 1024-byte buffer. -/
theorem c1_counterexample :
    ((handleSendEncode "storeData" [⟨"data", .primitive "string"⟩]
        [("data", String.mk (List.replicate 1013 'a'))]).toOption.map List.length)
      = some 1024 ∧ 8 + 4 + 1013 > 1024 :=
  ⟨by decide, by decide⟩

/-- The bool branch of decodeStep, when at least one byte remains. -/
theorem decodeStep_bool (buffer : List Nat) (offset : Nat) (h : offset < buffer.length) :
    decodeStep "bool" buffer offset =
      .ok ((if buffer.getD offset 0 = 1 then "true" else "false"), offset + 1) := by
  have hlk : List.lookup "bool" numericTypes = none := by decide
  unfold decodeStep
  rw [hlk]
  simp +decide
  rw [if_neg (by push_cast; omega)]

/-- The u8 branch of decodeStep, when at least one byte remains. -/
theorem decodeStep_u8 (buffer : List Nat) (offset : Nat) (h : offset < buffer.length) :
    decodeStep "u8" buffer offset = .ok (toString ((buffer.getD offset 0 : Int)), offset + 1) := by
  have hlk : List.lookup "u8" numericTypes = some (1, false) := by decide
  unfold decodeStep
  rw [hlk]
  simp +decide
  rw [if_neg (by push_cast; omega)]
  simp [readBigIntFromBuffer, List.range_succ]

/-- C2 (counterexample).  A payload whose byte is 2 is non-zero, so the
claim says the boolean decodes to true; the source compares the byte to 1
with strict equality and decodes it to false. -/
theorem c2_counterexample :
    decodeWithLayout [2] [⟨"active", "bool"⟩] = [⟨"active", "bool", "false"⟩] ∧
      decodeWithLayout [2] [⟨"active", "bool"⟩] ≠ [⟨"active", "bool", "true"⟩] := by
  exact ⟨by decide, by decide⟩

/-- C2 (amended).  A bool field with at least 1 byte remaining consumes
exactly that byte and decodes to true exactly when the byte equals 1, and to
false for every other value (zero or 2..255): decoding a one-field bool
layout reads only the first byte, and with a following u8 field the second
byte is consumed by that next field. -/
theorem c2_amended_bool_decode (b c : Nat) (rest : List Nat) :
    decodeWithLayout (b :: rest) [⟨"active", "bool"⟩]
        = [⟨"active", "bool", if b = 1 then "true" else "false"⟩] ∧
      decodeWithLayout (b :: c :: rest) [⟨"active", "bool"⟩, ⟨"n", "u8"⟩]
        = [⟨"active", "bool", if b = 1 then "true" else "false"⟩,
           ⟨"n", "u8", toString ((c : Int))⟩] := by
  have h1 : decodeStep "bool" (b :: rest) 0 = .ok (if b = 1 then "true" else "false", 1) := by
    rw [decodeStep_bool _ _ (by simp)]
    simp [List.getD]
  have h1x : decodeStep "bool" (b :: c :: rest) 0
      = .ok (if b = 1 then "true" else "false", 1) := by
    rw [decodeStep_bool _ _ (by simp)]
    simp [List.getD]
  have h2 : decodeStep "u8" (b :: c :: rest) 1 = .ok (toString ((c : Int)), 2) := by
    rw [decodeStep_u8 _ _ (by simp)]
    simp [List.getD]
  constructor
  · simp +decide [decodeWithLayout, decodeWithLayoutGo, h1]
  · simp +decide [decodeWithLayout, decodeWithLayoutGo, h1x, h2]

/-- C3 (counterexample).  The claim maps every Defined descriptor to the
opaque unknown kind, but the resolver returns the defined name itself: a
Defined descriptor named u8 resolves to u8, a recognized primitive kind, and
is therefore encoded as a u8 rather than through the unknown fallback. -/
theorem c3_counterexample :
    claimResolveKind (.definedT "u8") = "unknown" ∧
      resolveArgType (.definedT "u8") = "u8" ∧
      encoderKindOf (resolveArgType (.definedT "u8")) = "u8" ∧
      ("u8" : String) ≠ "unknown" := by decide

/-- C3 (amended).  At the kind level the resolver maps a Primitive name to
itself when recognized (unknown otherwise), recurses through Option and
CompatOption, maps Vector and Array to the unknown kind, and maps Defined to
its own name (the string kind when the name is blank), so a Defined name that
matches a primitive kind is encoded as that primitive. -/
theorem c3_amended_resolver_kind (t : IdlType) :
    encoderKindOf (resolveArgType t) = amendedResolveKind t := by
  induction t with
  | primitive s => rfl
  | definedT s =>
    by_cases h : s = ""
    · simp [resolveArgType, amendedResolveKind, h]; rfl
    · simp [resolveArgType, amendedResolveKind, h]
  | vec t => rfl
  | optionT t ih => simpa [resolveArgType, amendedResolveKind] using ih
  | coption t ih => simpa [resolveArgType, amendedResolveKind] using ih
  | arrayT t n => rfl

/-- C4 (counterexample).  For a method name beginning with an underscore the
final replace of toSnakeCase removes that underscore, so the code hashes
global:transfer while the claim normalization keeps global:_transfer; the two
discriminators differ. -/
theorem c4_counterexample :
    getInstructionDiscriminator "_transfer" ≠ claimDiscriminator "_transfer" := by decide

/-- C4 (amended).  For every method name that does not begin with an
underscore, the discriminator is the first 8 bytes of the SHA-256 of global:
followed by the snake-case normalization of the name, exactly as the claim
states (insert an underscore before every non-first uppercase letter, then
lowercase); the code additionally strips one leading underscore from the
normalized name, which changes the hashed string only for names beginning
with an underscore.  In particular setAuthority normalizes to set_authority. -/
theorem c4_amended_discriminator (s : String) (h : s.toList.head? ≠ some '_') :
    getInstructionDiscriminator s = claimDiscriminator s ∧
      toSnakeCase "setAuthority" = "set_authority" := by
  refine ⟨?_, by decide⟩
  unfold getInstructionDiscriminator claimDiscriminator
  rw [toSnakeCase_eq_claim s h]

/-- C4 (witness).  The amended discriminator theorem applied at the concrete
name setAuthority. -/
theorem c4_amended_discriminator_witness :
    "setAuthority".toList.head? ≠ some '_' ∧
      (getInstructionDiscriminator "setAuthority" = claimDiscriminator "setAuthority" ∧
        toSnakeCase "setAuthority" = "set_authority") :=
  ⟨by decide, c4_amended_discriminator "setAuthority" (by decide)⟩

/-- C5 (amended).  Range validation accepts exactly the claimed ranges for
both validators (the bigint validator for 64/128 bits, the number validator
for at most 32 bits): values at the bounds encode (u8 255 gives 0xFF, i8 -128
gives 0x80, u64 max gives eight 0xFF bytes) and values one past a bound fail
with a range error naming the argument, the offending value and the type —
except that a negative value for an unsigned 64- or 128-bit kind produces a
message naming only the argument and the type (see the counterexample). -/
theorem c5_amended_range_validation :
    (∀ (v : Int) (bits : Nat) (a t : String),
        (ensureBigIntRange v bits true a t = .ok ()) ↔
          (-(2 ^ (bits - 1)) ≤ v ∧ v ≤ 2 ^ (bits - 1) - 1)) ∧
    (∀ (v : Int) (bits : Nat) (a t : String),
        (ensureBigIntRange v bits false a t = .ok ()) ↔ (0 ≤ v ∧ v ≤ 2 ^ bits - 1)) ∧
    (∀ (v : Int) (bits : Nat) (a t : String),
        (ensureNumberRange v bits true a t = .ok ()) ↔
          (-(2 ^ (bits - 1)) ≤ v ∧ v ≤ 2 ^ (bits - 1) - 1)) ∧
    (∀ (v : Int) (bits : Nat) (a t : String),
        (ensureNumberRange v bits false a t = .ok ()) ↔ (0 ≤ v ∧ v ≤ 2 ^ bits - 1)) ∧
    encodeOne "u8" "255" = .ok [255] ∧
    encodeOne "u8" "256" = .error "[x] Value 256 is out of range for u8" ∧
    encodeOne "i8" "-128" = .ok [128] ∧
    encodeOne "i8" "-129" = .error "[x] Value -129 is out of range for i8" ∧
    encodeOne "u64" "18446744073709551615"
      = .ok [255, 255, 255, 255, 255, 255, 255, 255] ∧
    encodeOne "u64" "18446744073709551616"
      = .error "[x] Value 18446744073709551616 is out of range for u64" := by
  refine ⟨?_, ?_, ?_, ?_, ?_, ?_, ?_, ?_, ?_, ?_⟩
  · intro v bits a t
    unfold ensureBigIntRange
    split <;> simp_all
  · intro v bits a t
    unfold ensureBigIntRange
    simp only [Bool.false_eq_true, if_false]
    split
    · simp_all
    · split <;> simp_all
  · intro v bits a t
    unfold ensureNumberRange
    split <;> simp_all
  · intro v bits a t
    unfold ensureNumberRange
    split <;> simp_all
  all_goals decide

/-- C5 (counterexample).  The value -1 is one past the lower bound 0 of u64,
and the encode fails; but the error message names only the argument and the
type — the offending value -1 does not occur in it, though the claim says the
message names argument, value and type. -/
theorem c5_counterexample :
    encodeOne "u64" "-1" = .error "[x] u64 must be greater than or equal to 0" ∧
      containsSub "-1" "[x] u64 must be greater than or equal to 0" = false :=
  ⟨by decide, by decide⟩

/-- C6.  For every integer kind, encoding the minimum, maximum, zero and
(for signed kinds) -1 at the kind's exact byte width, little-endian with
two's complement for negatives, and decoding those bytes with a one-field
layout of the same kind yields the original value back. -/
theorem c6_integer_roundtrip :
    (encodeOne "u8" "0").map (fun bs => decodeWithLayout bs [⟨"x", "u8"⟩])
      = .ok [⟨"x", "u8", "0"⟩] ∧
    (encodeOne "u8" "255").map (fun bs => decodeWithLayout bs [⟨"x", "u8"⟩])
      = .ok [⟨"x", "u8", "255"⟩] ∧
    (encodeOne "u16" "0").map (fun bs => decodeWithLayout bs [⟨"x", "u16"⟩])
      = .ok [⟨"x", "u16", "0"⟩] ∧
    (encodeOne "u16" "65535").map (fun bs => decodeWithLayout bs [⟨"x", "u16"⟩])
      = .ok [⟨"x", "u16", "65535"⟩] ∧
    (encodeOne "u32" "0").map (fun bs => decodeWithLayout bs [⟨"x", "u32"⟩])
      = .ok [⟨"x", "u32", "0"⟩] ∧
    (encodeOne "u32" "4294967295").map (fun bs => decodeWithLayout bs [⟨"x", "u32"⟩])
      = .ok [⟨"x", "u32", "4294967295"⟩] ∧
    (encodeOne "u64" "0").map (fun bs => decodeWithLayout bs [⟨"x", "u64"⟩])
      = .ok [⟨"x", "u64", "0"⟩] ∧
    (encodeOne "u64" "18446744073709551615").map (fun bs => decodeWithLayout bs [⟨"x", "u64"⟩])
      = .ok [⟨"x", "u64", "18446744073709551615"⟩] ∧
    (encodeOne "u128" "0").map (fun bs => decodeWithLayout bs [⟨"x", "u128"⟩])
      = .ok [⟨"x", "u128", "0"⟩] ∧
    (encodeOne "u128" "340282366920938463463374607431768211455").map (fun bs => decodeWithLayout bs [⟨"x", "u128"⟩])
      = .ok [⟨"x", "u128", "340282366920938463463374607431768211455"⟩] ∧
    (encodeOne "i8" "-128").map (fun bs => decodeWithLayout bs [⟨"x", "i8"⟩])
      = .ok [⟨"x", "i8", "-128"⟩] ∧
    (encodeOne "i8" "127").map (fun bs => decodeWithLayout bs [⟨"x", "i8"⟩])
      = .ok [⟨"x", "i8", "127"⟩] ∧
    (encodeOne "i8" "0").map (fun bs => decodeWithLayout bs [⟨"x", "i8"⟩])
      = .ok [⟨"x", "i8", "0"⟩] ∧
    (encodeOne "i8" "-1").map (fun bs => decodeWithLayout bs [⟨"x", "i8"⟩])
      = .ok [⟨"x", "i8", "-1"⟩] ∧
    (encodeOne "i16" "-32768").map (fun bs => decodeWithLayout bs [⟨"x", "i16"⟩])
      = .ok [⟨"x", "i16", "-32768"⟩] ∧
    (encodeOne "i16" "32767").map (fun bs => decodeWithLayout bs [⟨"x", "i16"⟩])
      = .ok [⟨"x", "i16", "32767"⟩] ∧
    (encodeOne "i16" "0").map (fun bs => decodeWithLayout bs [⟨"x", "i16"⟩])
      = .ok [⟨"x", "i16", "0"⟩] ∧
    (encodeOne "i16" "-1").map (fun bs => decodeWithLayout bs [⟨"x", "i16"⟩])
      = .ok [⟨"x", "i16", "-1"⟩] ∧
    (encodeOne "i32" "-2147483648").map (fun bs => decodeWithLayout bs [⟨"x", "i32"⟩])
      = .ok [⟨"x", "i32", "-2147483648"⟩] ∧
    (encodeOne "i32" "2147483647").map (fun bs => decodeWithLayout bs [⟨"x", "i32"⟩])
      = .ok [⟨"x", "i32", "2147483647"⟩] ∧
    (encodeOne "i32" "0").map (fun bs => decodeWithLayout bs [⟨"x", "i32"⟩])
      = .ok [⟨"x", "i32", "0"⟩] ∧
    (encodeOne "i32" "-1").map (fun bs => decodeWithLayout bs [⟨"x", "i32"⟩])
      = .ok [⟨"x", "i32", "-1"⟩] ∧
    (encodeOne "i64" "-9223372036854775808").map (fun bs => decodeWithLayout bs [⟨"x", "i64"⟩])
      = .ok [⟨"x", "i64", "-9223372036854775808"⟩] ∧
    (encodeOne "i64" "9223372036854775807").map (fun bs => decodeWithLayout bs [⟨"x", "i64"⟩])
      = .ok [⟨"x", "i64", "9223372036854775807"⟩] ∧
    (encodeOne "i64" "0").map (fun bs => decodeWithLayout bs [⟨"x", "i64"⟩])
      = .ok [⟨"x", "i64", "0"⟩] ∧
    (encodeOne "i64" "-1").map (fun bs => decodeWithLayout bs [⟨"x", "i64"⟩])
      = .ok [⟨"x", "i64", "-1"⟩] ∧
    (encodeOne "i128" "-170141183460469231731687303715884105728").map (fun bs => decodeWithLayout bs [⟨"x", "i128"⟩])
      = .ok [⟨"x", "i128", "-170141183460469231731687303715884105728"⟩] ∧
    (encodeOne "i128" "170141183460469231731687303715884105727").map (fun bs => decodeWithLayout bs [⟨"x", "i128"⟩])
      = .ok [⟨"x", "i128", "170141183460469231731687303715884105727"⟩] ∧
    (encodeOne "i128" "0").map (fun bs => decodeWithLayout bs [⟨"x", "i128"⟩])
      = .ok [⟨"x", "i128", "0"⟩] ∧
    (encodeOne "i128" "-1").map (fun bs => decodeWithLayout bs [⟨"x", "i128"⟩])
      = .ok [⟨"x", "i128", "-1"⟩] := by
  repeat' apply And.intro
  all_goals decide

/-- C10.  A string-kind argument with no value in the value map encodes as
exactly a 4-byte little-endian zero length prefix with no content bytes, and
the same holds for arguments hitting the unknown/composite fallback (a vec of
any element type, and an unrecognized primitive name); a missing value never
makes the encode fail. -/
theorem c10_missing_value_zero_length (a : String) (t : IdlType) :
    handleSendEncode "store" [⟨a, .primitive "string"⟩] []
        = .ok (getInstructionDiscriminator "store" ++ [0, 0, 0, 0]) ∧
      handleSendEncode "store" [⟨a, .vec t⟩] []
        = .ok (getInstructionDiscriminator "store" ++ [0, 0, 0, 0]) ∧
      handleSendEncode "store" [⟨a, .primitive "fancyStruct"⟩] []
        = .ok (getInstructionDiscriminator "store" ++ [0, 0, 0, 0]) := by
  refine ⟨?_, ?_, ?_⟩ <;>
    simp +decide only [handleSendEncode, handleSendLoop, List.lookup, if_false,
      resolveArgType]

/-- The decoder never returns more fields than the layout declares. -/
theorem decodeGo_length_le (buffer : List Nat) (fields : List ReturnField) :
    ∀ (count offset : Nat),
      (decodeWithLayoutGo buffer fields count offset).length ≤ fields.length := by
  induction fields with
  | nil => intro count offset; simp [decodeWithLayoutGo]
  | cons f rest ih =>
    intro count offset
    unfold decodeWithLayoutGo
    dsimp only
    split
    · simpa using ih (count + 1) _
    · simp

/-- The i-th decoded field carries the type of the i-th layout field and the
trimmed (or defaulted) name of that field. -/
theorem decodeGo_get (buffer : List Nat) (fields : List ReturnField) :
    ∀ (count offset i : Nat) (di : DecodedReturnField),
      (decodeWithLayoutGo buffer fields count offset)[i]? = some di →
        fields[i]?.map ReturnField.type = some di.type ∧
        fields[i]?.map (fun f => if jsTrim f.name = "" then "field_" ++ toString (count + i + 1)
          else jsTrim f.name) = some di.name := by
  induction fields with
  | nil => intro count offset i di h; simp [decodeWithLayoutGo] at h
  | cons f rest ih =>
    intro count offset i di h
    unfold decodeWithLayoutGo at h
    dsimp only at h
    split at h
    · match i with
      | 0 =>
        simp at h
        subst h
        simp
        split
        · show "field_" ++ toString (count + 1) = "field_" ++ toString (count + 1) ++ ""
          rw [String.append_empty]
        · rfl
      | i + 1 =>
        simp at h
        have := ih (count + 1) _ i di h
        simpa [Nat.add_assoc, Nat.add_comm 1 i, Nat.add_left_comm] using this
    · match i with
      | 0 =>
        simp at h
        subst h
        simp
        split
        · show "field_" ++ toString (count + 1) = "field_" ++ toString (count + 1) ++ ""
          rw [String.append_empty]
        · rfl
      | i + 1 => simp at h

/-- Either every layout field decoded (one output per field), or the output
ends at the failing field, whose value is the embedded decode-error text. -/
theorem decodeGo_last_err (buffer : List Nat) (fields : List ReturnField) :
    ∀ (count offset : Nat),
      (decodeWithLayoutGo buffer fields count offset).length = fields.length ∨
        ((decodeWithLayoutGo buffer fields count offset).getLast?.map
          (fun d => d.value.toList.take 14)) = some "Decode error: ".toList := by
  induction fields with
  | nil => intro count offset; left; rfl
  | cons f rest ih =>
    intro count offset
    unfold decodeWithLayoutGo
    dsimp only
    split
    · rename_i st v off2 heq
      rcases ih (count + 1) off2 with h | h
      · left
        simpa using h
      · right
        have hne : decodeWithLayoutGo buffer rest (count + 1) off2 ≠ [] := by
          intro he
          rw [he] at h
          simp at h
        obtain ⟨x, xs, hxx⟩ := List.exists_cons_of_ne_nil hne
        rw [hxx, List.getLast?_cons_cons, ← hxx]
        exact h
    · rename_i st msg heq
      right
      simp [List.getLast?]
      show List.take 14 (("Decode error: ").data ++ (msg.data ++ [])) = ("Decode error: ").data
      rw [List.append_nil, show (14 : Nat) = ("Decode error: ").data.length from by decide,
        List.take_left]

/-- C7.  The decoder produces fields in layout order (the i-th output carries
the i-th layout type and name), never produces more fields than the layout,
records a decode-error message as the failing field's value and stops there,
and never throws (it is a total function by construction).  The two concrete
examples of the claim hold: the 5-byte payload decodes amount 10 and active
true, and the 3-byte payload yields only the amount field carrying the
decode-error message. -/
theorem c7_decoder_order_stop :
    (∀ (buffer : List Nat) (layout : List ReturnField),
        (decodeWithLayout buffer layout).length ≤ layout.length) ∧
    (∀ (buffer : List Nat) (layout : List ReturnField) (i : Nat) (di : DecodedReturnField),
        (decodeWithLayout buffer layout)[i]? = some di →
          layout[i]?.map ReturnField.type = some di.type ∧
          layout[i]?.map (fun f => if jsTrim f.name = "" then "field_" ++ toString (i + 1)
            else jsTrim f.name) = some di.name) ∧
    (∀ (buffer : List Nat) (layout : List ReturnField),
        (decodeWithLayout buffer layout).length = layout.length ∨
          ((decodeWithLayout buffer layout).getLast?.map (fun d => d.value.toList.take 14))
            = some "Decode error: ".toList) ∧
    decodeWithLayout [10, 0, 0, 0, 1] [⟨"amount", "u32"⟩, ⟨"active", "bool"⟩]
      = [⟨"amount", "u32", "10"⟩, ⟨"active", "bool", "true"⟩] ∧
    decodeWithLayout [1, 2, 3] [⟨"amount", "u32"⟩, ⟨"active", "bool"⟩]
      = [⟨"amount", "u32", "Decode error: Need 4 more bytes, only 3 left"⟩] := by
  refine ⟨?_, ?_, ?_, by decide, by decide⟩
  · intro buffer layout
    exact decodeGo_length_le buffer layout 0 0
  · intro buffer layout i di h
    have := decodeGo_get buffer layout 0 0 i di h
    simpa using this
  · intro buffer layout
    exact decodeGo_last_err buffer layout 0 0

/-- C7 (witness).  The order component of the decoder theorem applied at the
concrete 5-byte example. -/
theorem c7_decoder_order_stop_witness :
    ((decodeWithLayout [10, 0, 0, 0, 1] [⟨"amount", "u32"⟩, ⟨"active", "bool"⟩])[0]?
        = some ⟨"amount", "u32", "10"⟩) ∧
      ([(⟨"amount", "u32"⟩ : ReturnField), ⟨"active", "bool"⟩][0]?.map ReturnField.type
          = some "u32" ∧
        [(⟨"amount", "u32"⟩ : ReturnField), ⟨"active", "bool"⟩][0]?.map
            (fun f => if jsTrim f.name = "" then "field_" ++ toString (0 + 1)
              else jsTrim f.name) = some "amount") :=
  ⟨by decide, c7_decoder_order_stop.2.1 [10, 0, 0, 0, 1]
    [⟨"amount", "u32"⟩, ⟨"active", "bool"⟩] 0 ⟨"amount", "u32", "10"⟩ (by decide)⟩

/-- getD at an index inside the left part of an append. -/
theorem getD_append_of_lt {l l' : List Nat} {i : Nat} (h : i < l.length) (d : Nat) :
    (l ++ l').getD i d = l.getD i d := by
  simp [List.getD, List.getElem?_append, h]
/-- A little-endian read wholly inside the payload is unchanged by appending
bytes. -/
theorem leRead_append {buffer extra : List Nat} {off n : Nat} (h : off + n ≤ buffer.length) :
    leRead (buffer ++ extra) off n = leRead buffer off n := by
  unfold leRead
  apply List.foldl_ext
  intro a b hb
  rw [getD_append_of_lt]
  simp [List.mem_range] at hb
  omega
/-- readBigIntFromBuffer wholly inside the payload is unchanged by appending
bytes. -/
theorem readBigInt_append {buffer extra : List Nat} {off n : Nat} {s : Bool}
    (h : off + n ≤ buffer.length) :
    readBigIntFromBuffer (buffer ++ extra) off n s = readBigIntFromBuffer buffer off n s := by
  unfold readBigIntFromBuffer
  have : (List.range n).foldl (fun acc i => acc ||| (buffer ++ extra).getD (off + i) 0 <<< (8 * i)) 0
      = (List.range n).foldl (fun acc i => acc ||| buffer.getD (off + i) 0 <<< (8 * i)) 0 := by
    apply List.foldl_ext
    intro a b hb
    rw [getD_append_of_lt]
    simp [List.mem_range] at hb
    omega
  rw [this]
/-- A subarray wholly inside the payload is unchanged by appending bytes. -/
theorem slice_append {buffer extra : List Nat} {off k : Nat} (h : off + k ≤ buffer.length) :
    ((buffer ++ extra).drop off).take k = (buffer.drop off).take k := by
  rw [List.drop_append_eq_append_drop, Nat.sub_eq_zero_of_le (by omega), List.drop_zero]
  rw [List.take_append_of_le_length]
  simp
  omega
/-- A field that decodes successfully decodes to the same value and offset
after surplus bytes are appended to the payload. -/
theorem decodeStep_append {ty : String} {buffer : List Nat} {off : Nat} {v : String}
    {off2 : Nat} (extra : List Nat) (h : decodeStep ty buffer off = .ok (v, off2)) :
    decodeStep ty (buffer ++ extra) off = .ok (v, off2) := by
  unfold decodeStep at h ⊢
  dsimp only at h ⊢
  split at h
  · rename_i bytes signed heq
    by_cases hc : ((buffer.length : Int) - (off : Int) < (bytes : Int))
    · rw [if_pos hc] at h
      simp at h
    · rw [if_neg hc] at h
      rw [if_neg (show ¬(((buffer ++ extra).length : Int) - (off : Int) < (bytes : Int)) by
        simp only [List.length_append]; omega)]
      rw [readBigInt_append (by omega)]
      exact h
  · split at h
    · rename_i hb
      subst hb
      rw [if_pos rfl]
      by_cases hc : ((buffer.length : Int) - (off : Int) < ((1 : Nat) : Int))
      · rw [if_pos hc] at h
        simp at h
      · rw [if_neg hc] at h
        rw [if_neg (show ¬(((buffer ++ extra).length : Int) - (off : Int) < ((1 : Nat) : Int)) by
          simp only [List.length_append]; omega)]
        rw [getD_append_of_lt (by omega)]
        exact h
    · rename_i hb
      rw [if_neg hb]
      split at h
      · rename_i hp
        subst hp
        rw [if_pos rfl]
        by_cases hc : ((buffer.length : Int) - (off : Int) < ((32 : Nat) : Int))
        · rw [if_pos hc] at h
          simp at h
        · rw [if_neg hc] at h
          rw [if_neg (show ¬(((buffer ++ extra).length : Int) - (off : Int) < ((32 : Nat) : Int)) by
            simp only [List.length_append]; omega)]
          rw [slice_append (by omega)]
          exact h
      · rename_i hp
        rw [if_neg hp]
        split at h
        · rename_i hs
          rw [if_pos hs]
          by_cases hc : ((buffer.length : Int) - (off : Int) < ((4 : Nat) : Int))
          · rw [if_pos hc] at h
            simp at h
          · rw [if_neg hc] at h
            rw [if_neg (show ¬(((buffer ++ extra).length : Int) - (off : Int) < ((4 : Nat) : Int)) by
              simp only [List.length_append]; omega)]
            rw [leRead_append (by omega)]
            dsimp only at h ⊢
            by_cases hc2 : ((buffer.length : Int) - ((off + 4 : Nat) : Int)
                < (leRead buffer off 4 : Int))
            · rw [if_pos hc2] at h
              simp at h
            · rw [if_neg hc2] at h
              rw [if_neg (show ¬(((buffer ++ extra).length : Int) - ((off + 4 : Nat) : Int)
                  < (leRead buffer off 4 : Int)) by
                simp only [List.length_append]; push_cast at hc2 ⊢; omega)]
              rw [slice_append (by push_cast at hc2; omega)]
              exact h
        · rename_i hs
          rw [if_neg hs]
          cases h
/-- When every field decodes successfully, the whole decode is unchanged by
appended surplus bytes, and yields one output per field. -/
theorem decodeGo_append (buffer extra : List Nat) (fields : List ReturnField) :
    ∀ (count offset : Nat), decodeAllOk buffer fields offset = true →
      decodeWithLayoutGo (buffer ++ extra) fields count offset
          = decodeWithLayoutGo buffer fields count offset ∧
        (decodeWithLayoutGo buffer fields count offset).length = fields.length := by
  induction fields with
  | nil => intro count offset _; exact ⟨rfl, rfl⟩
  | cons f rest ih =>
    intro count offset hok
    unfold decodeAllOk at hok
    split at hok
    · rename_i v2 o2 heq
      have hstep := decodeStep_append extra heq
      unfold decodeWithLayoutGo
      dsimp only
      rw [heq, hstep]
      have := ih (count + 1) o2 hok
      simp [this.1, this.2]
    · cases hok
/-- C9.  If every layout field decodes successfully, the decoder returns
exactly one field per layout entry, and appending surplus trailing bytes to
the payload changes nothing: the surplus is silently ignored, produces no
error field, and is not reported. -/
theorem c9_surplus_bytes_ignored (buffer extra : List Nat) (layout : List ReturnField)
    (h : decodeAllOk buffer layout 0 = true) :
    (decodeWithLayout buffer layout).length = layout.length ∧
      decodeWithLayout (buffer ++ extra) layout = decodeWithLayout buffer layout := by
  have := decodeGo_append buffer extra layout 0 0 h
  exact ⟨this.2, this.1⟩
/-- C9 (witness).  The surplus theorem applied to the concrete 5-byte payload
with two extra trailing bytes. -/
theorem c9_surplus_bytes_ignored_witness :
    decodeAllOk [10, 0, 0, 0, 1] [⟨"amount", "u32"⟩, ⟨"active", "bool"⟩] 0 = true ∧
      ((decodeWithLayout [10, 0, 0, 0, 1] [⟨"amount", "u32"⟩, ⟨"active", "bool"⟩]).length = 2 ∧
        decodeWithLayout ([10, 0, 0, 0, 1] ++ [255, 7])
            [⟨"amount", "u32"⟩, ⟨"active", "bool"⟩]
          = decodeWithLayout [10, 0, 0, 0, 1] [⟨"amount", "u32"⟩, ⟨"active", "bool"⟩]) :=
  ⟨by decide, c9_surplus_bytes_ignored [10, 0, 0, 0, 1] [255, 7] [⟨"amount", "u32"⟩, ⟨"active", "bool"⟩]
    (by decide)⟩

/-- C8.  Encoding a boolean-kind argument first trims and lowercases the
textual value; the results empty, false and 0 encode to the single byte 0x00,
the results true and 1 encode to the single byte 0x01, and any other
normalized text fails the encode call with the invalid-boolean error naming
the argument. -/
theorem c8_bool_encoding (v : String) :
    handleSendEncode "setFlag" [⟨"flag", .primitive "bool"⟩] [("flag", v)] =
      (let n := jsToLower (jsTrim v)
       if n = "" ∨ n = "false" ∨ n = "0" then
         .ok (getInstructionDiscriminator "setFlag" ++ [0])
       else if n = "true" ∨ n = "1" then
         .ok (getInstructionDiscriminator "setFlag" ++ [1])
       else .error "[flag] Invalid bool value. Use true/false or 1/0.") := by
  simp +decide only [handleSendEncode, handleSendLoop, List.lookup, if_false, if_true,
    resolveArgType, beq_self_eq_true, Option.getD_some]
  split_ifs <;> decide

end ChainCall
